import Mathlib

/-
  Verification development for the email deliverability engine
  (Express server with DNS/MX/SPF checks and SMTP callout probes).

  The JavaScript sources are shallowly embedded:
  * `validateEmailFormat` (src/server/validators/email.js, lines 9-15):
    the anchored regex is translated into an executable matcher over the
    character list of the input string.
  * `verifyMailbox` (email.js, lines 17-123) and `verifyProviderMailbox`
    (providers file, lines 30-115): each Promise-based socket session is
    embedded as a state machine driven by a list of socket events; the
    first call to `resolve` wins, which is modelled by freezing the state
    once the `resolved` field is set.
  * `validateEmail` (email.js, lines 125-265): the async control flow is
    embedded as a pure function over an environment (`Env`) that fixes the
    outcome of every DNS lookup and of every probe attempt.  A probe that
    never resolves makes the whole call hang, hence the `Option` result.
  * the bulk route (routes/validation.js): the chunked loop over parsed
    CSV records, with JavaScript numbers modelled as exact rationals.
-/

namespace EV

/-! ## Character classes used by the address regex

The regex in `validateEmailFormat` is
`^[a-zA-Z0-9](?:[a-zA-Z0-9._%+-]{0,61}[a-zA-Z0-9])?@` followed by
`[a-zA-Z0-9](?:[a-zA-Z0-9-]{0,61}[a-zA-Z0-9])?(?:\.[a-zA-Z]{2,})+$`. -/

/-- Membership in the regex class `[a-zA-Z]`. -/
def isAlphaCh (c : Char) : Bool :=
  (65 ≤ c.toNat && c.toNat ≤ 90) || (97 ≤ c.toNat && c.toNat ≤ 122)

/-- Membership in the regex class `[a-zA-Z0-9]`. -/
def isAlnumCh (c : Char) : Bool :=
  isAlphaCh c || (48 ≤ c.toNat && c.toNat ≤ 57)

/-- Membership in the regex class `[a-zA-Z0-9._%+-]` (local-part middle). -/
def localCh (c : Char) : Bool :=
  isAlnumCh c || c = '.' || c = '_' || c = '%' || c = '+' || c = '-'

/-- Membership in the regex class `[a-zA-Z0-9-]` (first domain label middle). -/
def labelCh (c : Char) : Bool :=
  isAlnumCh c || c = '-'

/-! ## List helpers shared by the embeddings

`splitOnCharL` models `String.prototype.split` with a one-character
separator; `containsSub` models `String.prototype.includes`. -/

/-- Split a character list at every occurrence of `sep`; mirrors the
JavaScript `split` used on `'@'` and `'.'`.  The result is never empty. -/
def splitOnCharL (sep : Char) : List Char → List (List Char)
  | [] => [[]]
  | c :: rest =>
    if c = sep then [] :: splitOnCharL sep rest
    else
      match splitOnCharL sep rest with
      | [] => [[c]]
      | h :: t => (c :: h) :: t

/-- Does `needle` occur at the head of `hay`? -/
def startsWithL : List Char → List Char → Bool
  | [], _ => true
  | _ :: _, [] => false
  | a :: as, b :: bs => a = b && startsWithL as bs

/-- Does `needle` occur anywhere inside `hay`?  Models `includes`. -/
def containsSub (needle : List Char) : List Char → Bool
  | [] => startsWithL needle []
  | c :: t => startsWithL needle (c :: t) || containsSub needle t

/-- Split a character list at every occurrence of the two-character
separator `"\r\n"`; mirrors `response.split('\r\n')`. -/
def splitCRLF : List Char → List (List Char)
  | [] => [[]]
  | '\r' :: '\n' :: rest => [] :: splitCRLF rest
  | c :: rest =>
    match splitCRLF rest with
    | [] => [[c]]
    | h :: t => (c :: h) :: t

/-- Decimal value of the leading digit run, `none` when there is none;
the digit-parsing core of JavaScript `parseInt(s, 10)`. -/
def jsDigits (l : List Char) : Option Nat :=
  match l.takeWhile Char.isDigit with
  | [] => none
  | ds => some (ds.foldl (fun a c => a * 10 + (c.toNat - 48)) 0)

/-- Model of `parseInt(s)`: skip leading whitespace, optional sign, then a
leading decimal digit run; `none` models `NaN`. -/
def jsParseInt (l : List Char) : Option Int :=
  match l.dropWhile (fun c => c = ' ' || c = '\t' || c = '\n' || c = '\r') with
  | '-' :: rest => (jsDigits rest).map (fun n => -(n : Int))
  | '+' :: rest => (jsDigits rest).map (fun n => (n : Int))
  | l' => (jsDigits l').map (fun n => (n : Int))

/-- Model of `String.prototype.toLowerCase` for the ASCII domain names the
registry compares against. -/
def jsToLower (s : String) : String :=
  ⟨s.data.map Char.toLower⟩

/-! ## Syntax Validator (email.js, `validateEmailFormat`) -/

/-- A JavaScript value handed to `validateEmail`: either a string or some
non-string value (rejected by the `typeof` guard). -/
inductive EmailInput where
  | str (s : String)
  | nonString
deriving DecidableEq

/-- One regex "segment": a leading `[a-zA-Z0-9]`, then optionally up to 61
characters of the class `mid` followed by a final `[a-zA-Z0-9]`.  Both the
local part and the first domain label of the regex have this shape, with
`mid := localCh` resp. `mid := labelCh`. -/
def segOk (mid : Char → Bool) (l : List Char) : Bool :=
  match l with
  | [] => false
  | c :: rest =>
    isAlnumCh c &&
      (rest.isEmpty ||
        (rest.length ≤ 62 && rest.dropLast.all mid && isAlnumCh (rest.getLastD 'A')))

/-- The regex group `(?:\.[a-zA-Z]{2,})` without the dot: at least two
alphabetic characters. -/
def tldOk (w : List Char) : Bool :=
  2 ≤ w.length && w.all isAlphaCh

/-- The domain side of the regex: a first label, then one or more
dot-prefixed alphabetic labels.  Because neither side of a `.` group can
contain `'.'`, the regex language is exactly characterised by splitting on
`'.'`. -/
def domainOk (d : List Char) : Bool :=
  match splitOnCharL '.' d with
  | [] => false
  | p0 :: ps => segOk labelCh p0 && !ps.isEmpty && ps.all tldOk

/-- Embedding of `validateEmailFormat` (email.js lines 9-15): the falsy /
`typeof` guard, then the anchored regex.  Since no regex character class
contains `'@'`, a string matches the regex iff it splits at a unique `'@'`
into a local part and a domain accepted by the two sides. -/
def validateEmailFormat (input : EmailInput) : Bool :=
  match input with
  | .nonString => false
  | .str s =>
    if s.data = [] then false
    else
      match splitOnCharL '@' s.data with
      | [l, d] => segOk localCh l && domainOk d
      | _ => false

/-- Model of `const [, domain] = email.split('@')`. -/
def domainOf (email : String) : String :=
  ⟨((splitOnCharL '@' email.data).getD 1 [])⟩

/-! ## Provider Registry (providers file, `PROVIDER_CONFIGS`) -/

/-- One entry of `PROVIDER_CONFIGS`: alias domains, HELO identity, session
timeout in milliseconds. -/
structure ProviderBase where
  domains : List String
  helo : String
  timeout : Nat
deriving DecidableEq

/-- The value returned by `getProviderConfig`: the base entry plus the
provider key it was found under. -/
structure ProviderConfig extends ProviderBase where
  provider : String
deriving DecidableEq

/-- The static registry, in object-literal order. -/
def PROVIDER_CONFIGS : List (String × ProviderBase) :=
  [("outlook.com",
     ⟨["outlook.com", "hotmail.com", "live.com"],
      "outlook-com.olc.protection.outlook.com", 15000⟩),
   ("yahoo.com",
     ⟨["yahoo.com", "ymail.com", "yahoo.co.uk"],
      "yahoo-smtp-in.l.yahoo.com", 12000⟩),
   ("icloud.com",
     ⟨["icloud.com", "me.com", "mac.com"],
      "icloud-com.mail.protection.outlook.com", 10000⟩)]

/-- Embedding of `getProviderConfig`: first registry entry whose alias list
contains the lower-cased domain, spread together with its provider key. -/
def getProviderConfig (domain : String) : Option ProviderConfig :=
  match PROVIDER_CONFIGS.find? (fun pc => pc.2.domains.contains (jsToLower domain)) with
  | some (name, base) => some { toProviderBase := base, provider := name }
  | none => none

/-! ## SMTP probe engine — socket event model

A probe session is driven by the socket events it receives, in order:
connection success, data chunks, socket error, socket close, and timer
expiry (`socket.setTimeout` for the generic probe, `setTimeout` for the
provider probe).  The Promise surrounding each session resolves at most
once: the model freezes the state as soon as `resolved` is set, so the
first `resolve` call wins exactly as in the JavaScript.  Command writes
are observable only through the `currentCommand` counter, which the code
itself only ever compares against bounds. -/

/-- A socket-level event delivered to a probe session. -/
inductive NetEvent where
  | connected
  | data (chunk : String)
  | errored
  | closed
  | timedOut
deriving DecidableEq

/-! ### Generic lenient probe (`verifyMailbox`, email.js lines 17-123) -/

/-- Session state of `verifyMailbox`: the accumulated `response` buffer,
the `isValid` flag, the `receivedRcptResponse` flag, the `currentCommand`
cursor (number of commands already written), whether `connect` succeeded,
and the resolved value of the Promise (`none` while pending). -/
structure GState where
  response : List Char
  isValid : Bool
  receivedRcpt : Bool
  currentCommand : Nat
  connected : Bool
  resolved : Option Bool
deriving DecidableEq

/-- Initial session state. -/
def initGen : GState :=
  ⟨[], false, false, 0, false, none⟩

/-- Per-line body of the `data` handler loop (email.js lines 60-100):
parse a leading 3-character status code, handle the RCPT response when
`currentCommand === 2`, advance on 2xx/451/452, abort as invalid on a
code of 500 or more. -/
def procLineGen (st : GState) (line : List Char) : GState :=
  if st.resolved.isSome then st
  else
    match jsParseInt (line.take 3) with
    | none => st
    | some code =>
      if code = 0 then st
      else
        let st1 :=
          if st.currentCommand = 2 ∧ st.receivedRcpt = false then
            { st with
              receivedRcpt := true,
              isValid :=
                if code = 250 ∨ code = 251 ∨ code = 252 then true
                else if code = 450 ∨ code = 451 ∨ code = 452 then true
                else if 500 ≤ code ∨ code = 550 ∨ code = 553 then false
                else st.isValid }
          else st
        if (200 ≤ code ∧ code < 300) ∨ code = 451 ∨ code = 452 then
          if st1.currentCommand < 4 then
            { st1 with currentCommand := st1.currentCommand + 1 }
          else st1
        else if 500 ≤ code then { st1 with resolved := some false }
        else st1

/-- The `data` handler of `verifyMailbox` (email.js lines 56-103):
append the chunk, and once a CRLF is present split into lines, run the
per-line loop (which stops at a resolving line), and keep the trailing
partial line as the new buffer. -/
def procDataGen (st : GState) (chunk : String) : GState :=
  let resp := st.response ++ chunk.data
  if containsSub ("\r\n".data) resp then
    let lines := splitCRLF resp
    let st1 := List.foldl procLineGen { st with response := resp } lines
    if st1.resolved.isSome then st1
    else { st1 with response := lines.getLastD [] }
  else { st with response := resp }

/-- One socket event of a `verifyMailbox` session.  All handlers are
registered before `connect`, so data may arrive in any state; `connect`
writes `HELO` (the first command).  Timeout resolves to
`currentCommand > 1`, error to `currentCommand > 0`, close to
`isValid || (currentCommand > 1 && !receivedRcptResponse)`. -/
def stepGen (st : GState) (ev : NetEvent) : GState :=
  if st.resolved.isSome then st
  else
    match ev with
    | .connected => { st with connected := true, currentCommand := 1 }
    | .data s => procDataGen st s
    | .errored => { st with resolved := some (decide (st.currentCommand > 0)) }
    | .timedOut => { st with resolved := some (decide (st.currentCommand > 1)) }
    | .closed =>
      { st with
        resolved :=
          some (st.isValid || (decide (st.currentCommand > 1) && !st.receivedRcpt)) }

/-! ### Provider-specific probe (`verifyProviderMailbox`) -/

/-- Session state of `verifyProviderMailbox`: as for the generic probe but
with no RCPT flag (the provider dialect checks every response against its
success codes). -/
structure PState where
  response : List Char
  isValid : Bool
  currentCommand : Nat
  connected : Bool
  resolved : Option Bool
deriving DecidableEq

/-- Initial provider session state. -/
def initProv : PState :=
  ⟨[], false, 0, false, none⟩

/-- The provider `switch` (providers file lines 50-76): which response
codes set the validity flag for each provider key. -/
def provSuccess (provider : String) (code : Int) : Bool :=
  if provider = "outlook.com" then code = 250 ∨ code = 251
  else if provider = "yahoo.com" then code = 250 ∨ code = 235
  else if provider = "icloud.com" then code = 250 ∨ code = 220
  else 200 ≤ code ∧ code < 300

/-- The `handleResponse` data handler (providers file lines 45-90): once a
CRLF is present, parse the first three characters of the whole buffer,
apply the provider switch (the flag is only ever set, never cleared),
advance the cursor on 2xx/451/452, abort as invalid on `>= 500` or 450,
then clear the buffer. -/
def procDataProv (cfg : ProviderConfig) (st : PState) (chunk : String) : PState :=
  let resp := st.response ++ chunk.data
  if containsSub ("\r\n".data) resp then
    let st1 :=
      match jsParseInt (resp.take 3) with
      | none => st
      | some code =>
        let st2 := if provSuccess cfg.provider code then { st with isValid := true } else st
        if (200 ≤ code ∧ code < 300) ∨ code = 451 ∨ code = 452 then
          { st2 with currentCommand := st2.currentCommand + 1 }
        else if 500 ≤ code ∨ code = 450 then { st2 with resolved := some false }
        else st2
    { st1 with response := [] }
  else { st with response := resp }

/-- One socket event of a `verifyProviderMailbox` session.  The `data` and
`close` handlers are registered only inside the `connect` callback, so they
are inert before connection.  Crucially the function installs an error
handler resolving `false` (line 106) before `connect` ever fires its
callback, which registers a second error handler resolving `isValid`
(line 97); on an error event the first-registered handler resolves the
Promise first, so every socket error resolves `false`.  The `setTimeout`
expiry resolves the current flag. -/
def stepProv (cfg : ProviderConfig) (st : PState) (ev : NetEvent) : PState :=
  if st.resolved.isSome then st
  else
    match ev with
    | .connected => { st with connected := true }
    | .data s => if st.connected then procDataProv cfg st s else st
    | .errored => { st with resolved := some false }
    | .closed => if st.connected then { st with resolved := some st.isValid } else st
    | .timedOut => { st with resolved := some st.isValid }

/-! ## Verdict Composer (`validateEmail`, email.js lines 125-265) -/

/-- The `checks` object, fields in object-literal order. -/
structure Checks where
  mx : Bool
  dns : Bool
  spf : Bool
  mailbox : Bool
  smtp : Bool
deriving DecidableEq

/-- `Object.values(result.checks).every(check => check)` (email.js
line 251). -/
def checksAnd (c : Checks) : Bool :=
  c.mx && c.dns && c.spf && c.mailbox && c.smtp

/-- The structured result of `validateEmail`. -/
structure VerificationResult where
  email : EmailInput
  valid : Bool
  checks : Checks
  reason : String
deriving DecidableEq

/-- Outcome environment for one `validateEmail` call: whether
`dns.promises.lookup(domain)` succeeds, the outcome of `resolveMx`
(`none` models a rejected promise, `some l` the resolved record list of
exchanger hosts), the outcome of `resolveTxt`, and the resolved value of
each probe attempt keyed by exchanger host (`none` models a probe whose
Promise never resolves, which would hang the `await`). -/
structure Env where
  lookupOk : Bool
  mx : Option (List String)
  txt : Option (List (List String))
  genericProbe : String → Option Bool
  providerProbe : String → Option Bool

/-- The `for (const mx of mxRecords)` probe loop (email.js lines 207-232):
try each exchanger, stop at the first `true`; neither probe function ever
rejects, so the `catch { continue }` is unreachable.  `none` propagates a
probe that never resolves. -/
def probeLoop (probe : String → Option Bool) : List String → Option Bool
  | [] => some false
  | m :: rest =>
    match probe m with
    | none => none
    | some true => some true
    | some false => probeLoop probe rest

/-- SMTP and mailbox stage (email.js lines 199-248) together with the
final verdict (lines 250-259).  On a positive probe both `smtp` and
`mailbox` are set and `valid` is recomputed as the conjunction of all
checks, with `reason` chosen from `valid` (the reason is still `''` on
this path, so the `!result.reason` branch yields the fixed fallback
text).  On an exhausted loop the lenient fallback (lines 235-243)
applies for non-registry domains and returns early. -/
def smtpStage (env : Env) (email : String) (pc : Option ProviderConfig)
    (mxs : List String) (spf : Bool) : Option VerificationResult :=
  match probeLoop (match pc with | some _ => env.providerProbe | none => env.genericProbe) mxs with
  | none => none
  | some true =>
    some { email := .str email,
           valid := checksAnd ⟨true, true, spf, true, true⟩,
           checks := ⟨true, true, spf, true, true⟩,
           reason :=
             if checksAnd ⟨true, true, spf, true, true⟩ then
               "Email verified successfully"
             else "Failed to verify email" }
  | some false =>
    match pc with
    | none =>
      some { email := .str email, valid := false,
             checks := ⟨true, true, spf, true, true⟩,
             reason := "Email appears valid but could not fully verify" }
    | some _ =>
      some { email := .str email, valid := false,
             checks := ⟨true, true, spf, false, false⟩,
             reason := "Mailbox verification failed" }

/-- SPF stage (email.js lines 179-197): on a resolved TXT lookup, `spf`
records whether any record contains `v=spf1`, and a missing record stops
only registry domains; on a rejected lookup registry domains stop and
generic domains get `spf` forced `true`. -/
def spfStage (env : Env) (email domain : String) (mxs : List String) :
    Option VerificationResult :=
  match env.txt with
  | some t =>
    if t.any (fun records => records.any (fun rec => containsSub ("v=spf1".data) rec.data)) = false
        ∧ (getProviderConfig domain).isSome then
      some { email := .str email, valid := false,
             checks := ⟨true, true, false, false, false⟩,
             reason := "Domain lacks SPF record" }
    else
      smtpStage env email (getProviderConfig domain) mxs
        (t.any (fun records => records.any (fun rec => containsSub ("v=spf1".data) rec.data)))
  | none =>
    if (getProviderConfig domain).isSome then
      some { email := .str email, valid := false,
             checks := ⟨true, true, false, false, false⟩,
             reason := "Failed to verify SPF record" }
    else smtpStage env email (getProviderConfig domain) mxs true

/-- MX stage (email.js lines 165-177): a rejected `resolveMx` or an empty
record list stops with `mx` false. -/
def mxStage (env : Env) (email domain : String) : Option VerificationResult :=
  match env.mx with
  | none =>
    some { email := .str email, valid := false,
           checks := ⟨false, true, false, false, false⟩,
           reason := "Failed to verify mail server" }
  | some mxs =>
    if mxs.length > 0 then spfStage env email domain mxs
    else
      some { email := .str email, valid := false,
             checks := ⟨false, true, false, false, false⟩,
             reason := "No mail server found for domain" }

/-- DNS stage (email.js lines 156-163). -/
def dnsStage (env : Env) (email domain : String) : Option VerificationResult :=
  if env.lookupOk then mxStage env email domain
  else
    some { email := .str email, valid := false,
           checks := ⟨false, false, false, false, false⟩,
           reason := "Domain does not exist" }

/-- Embedding of `validateEmail`: format gate, then the staged checks.
`none` models a call that never returns because an awaited probe never
resolves; every other path returns a result. -/
def validateEmailWith (env : Env) (input : EmailInput) : Option VerificationResult :=
  match input with
  | .nonString =>
    some { email := .nonString, valid := false,
           checks := ⟨false, false, false, false, false⟩,
           reason := "Invalid email format" }
  | .str email =>
    if validateEmailFormat (.str email) then
      dnsStage env email (domainOf email)
    else
      some { email := .str email, valid := false,
             checks := ⟨false, false, false, false, false⟩,
             reason := "Invalid email format" }

/-! ## Bulk Orchestrator (routes/validation.js, `/validate/bulk`) -/

/-- One NDJSON payload written by the bulk route. -/
inductive BulkEvent (β : Type) where
  | progress (pct : ℚ) (partialResults : List β)
  | complete (results : List β)
  | error (message : String)
deriving DecidableEq

/-- The chunked loop of the `end` handler (validation.js lines 121-137):
slice ten records, process them (order preserved by `Promise.all`), write
a progress event with `Math.min(((i + chunkSize) / records.length) * 100,
100)`, then after the loop one completion event with the accumulated
results.  JavaScript numbers are modelled as exact rationals. -/
def bulkGo {α β : Type} (f : α → β) (n : ℕ) (i : ℕ) (rem : List α) (acc : List β) :
    List (BulkEvent β) :=
  match rem with
  | [] => [.complete acc]
  | a :: rest =>
    .progress (min ((((i : ℚ) + 10) / (n : ℚ)) * 100) 100) (((a :: rest).take 10).map f)
      :: bulkGo f n (i + 10) ((a :: rest).drop 10) (acc ++ ((a :: rest).take 10).map f)
termination_by rem.length
decreasing_by simp [List.length_drop]; omega

/-- Whole bulk run over the parsed records. -/
def bulkRun {α β : Type} (f : α → β) (records : List α) : List (BulkEvent β) :=
  bulkGo f records.length 0 records []

/-! ## Per-record processing (`processChunk`, validation.js lines 89-105) -/

/-- A parsed CSV record: association list of column name to cell text. -/
abbrev Record := List (String × String)

/-- Model of reading property `k` of a record and testing truthiness: CSV
cells are strings, and the empty string is falsy. -/
def truthyGet (rec : Record) (k : String) : Option String :=
  match rec.lookup k with
  | some v => if v = "" then none else some v
  | none => none

/-- Model of `chunk.email || chunk.Email || chunk.EMAIL`. -/
def findEmailField (rec : Record) : Option String :=
  match truthyGet rec "email" with
  | some v => some v
  | none =>
    match truthyGet rec "Email" with
    | some v => some v
    | none => truthyGet rec "EMAIL"

/-- Output of `processChunk`: either the original record enriched with the
validation columns derived from a `VerificationResult`, or the original
record passed through untouched. -/
inductive Processed where
  | validated (orig : Record) (vr : VerificationResult)
  | unchanged (rec : Record)
deriving DecidableEq

/-- Embedding of `processChunk`, parameterised by the validator applied to
the located address (the route applies `validateEmail`). -/
def processChunk (validate : String → VerificationResult) (chunk : Record) : Processed :=
  match findEmailField chunk with
  | some e => .validated chunk (validate e)
  | none => .unchanged chunk

/-! ## Derived predicates and concrete instances used by the theorems -/

/-- Structural facts about every result `validateEmail` actually returns:
`valid` only when every check holds; `valid` agrees with the conjunction
of the checks on every path except the lenient fallback; `mailbox` and
`smtp` always move together; and the gating order `mailbox → mx → dns`. -/
def ResultInv (r : VerificationResult) : Prop :=
  (r.valid = true → checksAnd r.checks = true) ∧
  (r.reason ≠ "Email appears valid but could not fully verify" →
    r.valid = checksAnd r.checks) ∧
  r.checks.mailbox = r.checks.smtp ∧
  (r.checks.mailbox = true → r.checks.mx = true) ∧
  (r.checks.mx = true → r.checks.dns = true)

/-- Environment of a fully successful generic-domain validation. -/
def envHappy : Env where
  lookupOk := true
  mx := some ["mx1.example.com"]
  txt := some [["v=spf1 include:x"]]
  genericProbe := fun _ => some true
  providerProbe := fun _ => some false

/-- As `envHappy` but every generic probe attempt resolves `false`,
sending the composer through the lenient fallback. -/
def envFallback : Env :=
  { envHappy with genericProbe := fun _ => some false }

/-- As `envHappy` but the TXT lookup resolves with records that do not
contain `v=spf1`. -/
def envNoSpfTxt : Env :=
  { envHappy with txt := some [["something"]] }

/-- As `envHappy` but the TXT lookup rejects. -/
def envTxtErr : Env :=
  { envHappy with txt := none }

/-- The happy-path result on `envHappy` for `user@example.com`. -/
def resHappy : VerificationResult :=
  ⟨.str "user@example.com", true, ⟨true, true, true, true, true⟩,
    "Email verified successfully"⟩

/-- A generic-probe session: connection, the server banner, then the 7s
socket timeout with two commands already written. -/
def traceTwoCmd : List NetEvent :=
  [.connected, .data "220 mx ready\r\n", .timedOut]

/-- Environment whose single generic probe attempt behaves exactly as the
`verifyMailbox` session driven by `traceTwoCmd`. -/
def envTimeoutProbe : Env where
  lookupOk := true
  mx := some ["mx.generic-example.com"]
  txt := none
  genericProbe := fun _ => (List.foldl stepGen initGen traceTwoCmd).resolved
  providerProbe := fun _ => some false

/-- The registry entry for `outlook.com`. -/
def outlookCfg : ProviderConfig :=
  (getProviderConfig "outlook.com").getD ⟨⟨[], "", 0⟩, ""⟩

/-- A fixed validator used to instantiate `processChunk` in record-level
statements. -/
def constVal : String → VerificationResult :=
  fun e => ⟨.str e, false, ⟨false, false, false, false, false⟩, "x"⟩

/-! ## The spec's address grammar, stated in its own words

The specification describes the accepted addresses as: a local part of
1-63 characters drawn from alphanumerics plus `. _ % + -` that does not
lead or trail with a dot, an `@`, and one or more dot-separated labels,
each of 1-63 alphanumeric/hyphen characters not leading or trailing with
a hyphen, the last of which has at least two alphabetic characters.  This
definition follows those words so it can be compared with the regex. -/

/-- Local part as worded by the spec. -/
def specLocalOk (l : List Char) : Bool :=
  1 ≤ l.length && l.length ≤ 63 && l.all localCh &&
    l.head? != some '.' && l.getLast? != some '.'

/-- Domain label as worded by the spec. -/
def specLabelOk (p : List Char) : Bool :=
  1 ≤ p.length && p.length ≤ 63 && p.all labelCh &&
    p.head? != some '-' && p.getLast? != some '-'

/-- Address grammar as worded by the spec (claim C8's right-hand side). -/
def specEmailFormat (s : String) : Bool :=
  match splitOnCharL '@' s.data with
  | [l, d] =>
    specLocalOk l &&
      (let ps := splitOnCharL '.' d
       !ps.isEmpty && ps.all specLabelOk && tldOk (ps.getLastD []))
  | _ => false

/-! ## Declarative language of the source regex

The corrected characterisation of `validateEmailFormat`: the same
segment/label structure as the regex, stated as a decomposition rather
than through splitting. -/

/-- Language of one regex segment `[a-zA-Z0-9](?:mid{0,61}[a-zA-Z0-9])?`. -/
def SegLang (mid : Char → Bool) (l : List Char) : Prop :=
  ∃ c rest, l = c :: rest ∧ isAlnumCh c = true ∧
    (rest = [] ∨ ∃ m z, rest = m ++ [z] ∧ m.length ≤ 61 ∧
      (∀ x ∈ m, mid x = true) ∧ isAlnumCh z = true)

/-- Language of the group `[a-zA-Z]{2,}`. -/
def TldLang (w : List Char) : Prop :=
  2 ≤ w.length ∧ ∀ x ∈ w, isAlphaCh x = true

/-- Language of the regex domain: a first hyphen-style label followed by
one or more dot-prefixed alphabetic labels. -/
def DomainLang (d : List Char) : Prop :=
  ∃ p0 ws, d = p0 ++ (ws.map (fun w => '.' :: w)).flatten ∧
    SegLang labelCh p0 ∧ ws ≠ [] ∧ ∀ w ∈ ws, TldLang w

/-- Language of the whole anchored regex. -/
def EmailLang (s : List Char) : Prop :=
  ∃ l d, s = l ++ '@' :: d ∧ SegLang localCh l ∧ DomainLang d

/-! ## Path invariants of the composer -/

theorem smtpStage_inv (env : Env) (email : String) (pc : Option ProviderConfig)
    (mxs : List String) (spf : Bool) (r : VerificationResult)
    (h : smtpStage env email pc mxs spf = some r) : ResultInv r := by
  unfold smtpStage at h
  split at h
  · exact absurd h (by simp)
  · injection h with h
    subst h
    cases spf <;> simp [ResultInv, checksAnd]
  · split at h <;> injection h with h <;> subst h <;>
      cases spf <;> simp [ResultInv, checksAnd]

theorem spfStage_inv (env : Env) (email domain : String) (mxs : List String)
    (r : VerificationResult) (h : spfStage env email domain mxs = some r) :
    ResultInv r := by
  unfold spfStage at h
  split at h
  · split at h
    · injection h with h
      subst h
      simp [ResultInv, checksAnd]
    · exact smtpStage_inv _ _ _ _ _ _ h
  · split at h
    · injection h with h
      subst h
      simp [ResultInv, checksAnd]
    · exact smtpStage_inv _ _ _ _ _ _ h

theorem mxStage_inv (env : Env) (email domain : String) (r : VerificationResult)
    (h : mxStage env email domain = some r) : ResultInv r := by
  unfold mxStage at h
  split at h
  · injection h with h
    subst h
    simp [ResultInv, checksAnd]
  · split at h
    · exact spfStage_inv _ _ _ _ _ h
    · injection h with h
      subst h
      simp [ResultInv, checksAnd]

theorem dnsStage_inv (env : Env) (email domain : String) (r : VerificationResult)
    (h : dnsStage env email domain = some r) : ResultInv r := by
  unfold dnsStage at h
  split at h
  · exact mxStage_inv _ _ _ _ h
  · injection h with h
    subst h
    simp [ResultInv, checksAnd]

theorem validateEmailWith_inv (env : Env) (input : EmailInput)
    (r : VerificationResult) (h : validateEmailWith env input = some r) :
    ResultInv r := by
  unfold validateEmailWith at h
  split at h
  · injection h with h
    subst h
    simp [ResultInv, checksAnd]
  · split at h
    · exact dnsStage_inv _ _ _ _ h
    · injection h with h
      subst h
      simp [ResultInv, checksAnd]

/-! ## Claim C1 -/

/-- Counterexample to claim C1 as stated: on the lenient fallback path
(registry miss, DNS and MX pass, SPF record present, every probe attempt
resolves `false`) the composer returns early with every one of the five
checks `true` while `valid` is still `false`, so `valid` is not the
conjunction of the checks on this return path. -/
theorem valid_iff_checks_cx :
    validateEmailWith envFallback (EmailInput.str "user@example.com")
      = some ⟨EmailInput.str "user@example.com", false, ⟨true, true, true, true, true⟩,
          "Email appears valid but could not fully verify"⟩
    ∧ checksAnd ⟨true, true, true, true, true⟩ = true := by
  constructor
  · decide
  · decide

/-- Claim C1, amended: `valid = true` only when every check is true, and
`valid` is recomputed as the conjunction of the five checks on every
return path except the lenient fallback (recognised by its fixed reason
text), where `valid` stays `false` even though all five checks may be
true. -/
theorem valid_only_with_all_checks (env : Env) (input : EmailInput)
    (r : VerificationResult) (h : validateEmailWith env input = some r) :
    (r.valid = true → checksAnd r.checks = true) ∧
    (r.reason ≠ "Email appears valid but could not fully verify" →
      r.valid = checksAnd r.checks) := by
  have hi := validateEmailWith_inv env input r h
  exact ⟨hi.1, hi.2.1⟩

/-- Witness for C1's amended theorem at a concrete successful run. -/
theorem valid_only_with_all_checks_w : checksAnd resHappy.checks = true := by
  have h := valid_only_with_all_checks envHappy (EmailInput.str "user@example.com")
    resHappy (by decide)
  exact h.1 (by decide)

/-! ## Claim C4 -/

/-- Claim C4: on every result the composer returns, `checks.mailbox` and
`checks.smtp` are equal — no return path sets one without the other. -/
theorem mailbox_smtp_paired (env : Env) (input : EmailInput)
    (r : VerificationResult) (h : validateEmailWith env input = some r) :
    r.checks.mailbox = r.checks.smtp :=
  (validateEmailWith_inv env input r h).2.2.1

/-- Witness for C4 at a concrete run. -/
theorem mailbox_smtp_paired_w : resHappy.checks.mailbox = resHappy.checks.smtp :=
  mailbox_smtp_paired envHappy (EmailInput.str "user@example.com") resHappy (by decide)

/-! ## Claim C10 -/

/-- Claim C10: the checks are monotone in gate order — a true `mailbox`
or `smtp` forces a true `mx`, and a true `mx` forces a true `dns`. -/
theorem checks_monotone (env : Env) (input : EmailInput)
    (r : VerificationResult) (h : validateEmailWith env input = some r) :
    (r.checks.mailbox = true → r.checks.mx = true) ∧
    (r.checks.smtp = true → r.checks.mx = true) ∧
    (r.checks.mx = true → r.checks.dns = true) := by
  have hi := validateEmailWith_inv env input r h
  refine ⟨hi.2.2.2.1, ?_, hi.2.2.2.2⟩
  intro hs
  exact hi.2.2.2.1 (hi.2.2.1.trans hs)

/-- Witness for C10 at a concrete run. -/
theorem checks_monotone_w : resHappy.checks.dns = true := by
  have h := checks_monotone envHappy (EmailInput.str "user@example.com")
    resHappy (by decide)
  exact h.2.2 (by decide)

/-! ## Claim C6 -/

/-- Claim C6: any input rejected by the syntax gate — non-strings, the
empty string, and every string the regex rejects — yields the fixed
result with `valid = false`, all five checks `false` and reason exactly
`"Invalid email format"`, independently of the environment (hence with no
network access, and identically on every re-run). -/
theorem invalid_format_result (env : Env) (input : EmailInput)
    (h : validateEmailFormat input = false) :
    validateEmailWith env input
      = some ⟨input, false, ⟨false, false, false, false, false⟩,
          "Invalid email format"⟩ := by
  unfold validateEmailWith
  cases input with
  | nonString => rfl
  | str s => simp [h]

/-- Witness for C6 at the spec's own scenario input. -/
theorem invalid_format_result_w :
    validateEmailWith envHappy (EmailInput.str "not-an-email")
      = some ⟨EmailInput.str "not-an-email", false,
          ⟨false, false, false, false, false⟩, "Invalid email format"⟩ :=
  invalid_format_result envHappy (EmailInput.str "not-an-email") (by decide)

/-! ## Claim C2 -/

/-- Counterexample to claim C2 as stated: for a non-registry domain whose
DNS and MX checks pass and whose TXT lookup succeeds without any record
containing `v=spf1`, the `spf` check is not forced true — it stays
`false`, and even with a positive mailbox probe the final verdict is
`valid = false` with nothing but the SPF check failing. -/
theorem spf_waiver_cx :
    validateEmailWith envNoSpfTxt (EmailInput.str "user@example.com")
      = some ⟨EmailInput.str "user@example.com", false, ⟨true, true, false, true, true⟩,
          "Failed to verify email"⟩
    ∧ getProviderConfig "example.com" = none := by
  constructor
  · decide
  · decide

/-- Claim C2, amended: for a non-registry domain that passes DNS and MX,
the SPF waiver applies only when the TXT lookup itself fails — then `spf`
is forced `true` with no early stop; when the lookup succeeds without the
token `v=spf1`, `spf` remains `false` (still with no early stop) and the
returned verdict is `valid = false`, so a missing SPF record alone does
make the address invalid on that branch. -/
theorem spf_waiver (env : Env) (email : String) (mxs : List String)
    (hfmt : validateEmailFormat (EmailInput.str email) = true)
    (hpc : getProviderConfig (domainOf email) = none)
    (hdns : env.lookupOk = true)
    (hmx : env.mx = some mxs)
    (hne : mxs ≠ []) :
    (env.txt = none →
      ∀ r, validateEmailWith env (EmailInput.str email) = some r →
        r.checks.spf = true)
    ∧ (∀ t, env.txt = some t →
        t.any (fun records => records.any (fun rec => containsSub ("v=spf1".data) rec.data)) = false →
        ∀ r, validateEmailWith env (EmailInput.str email) = some r →
          r.checks.spf = false ∧ r.valid = false) := by
  have hlen : mxs.length > 0 := List.length_pos.mpr hne
  constructor
  · intro htxt r h
    unfold validateEmailWith dnsStage mxStage spfStage at h
    simp only [hfmt, if_true, hdns, hmx, hlen, htxt, hpc, Option.isSome_none,
      Bool.false_eq_true, if_false, and_false, ite_true, ite_false] at h
    unfold smtpStage at h
    split at h
    · exact absurd h (by simp)
    · injection h with h
      subst h
      rfl
    · split at h
      · injection h with h
        subst h
        rfl
      · injection h with h
        subst h
        rfl
  · intro t htxt hno r h
    unfold validateEmailWith dnsStage mxStage spfStage at h
    simp only [hfmt, if_true, hdns, hmx, hlen, htxt, hno, hpc, Option.isSome_none,
      Bool.false_eq_true, if_false, and_false, ite_true, ite_false] at h
    unfold smtpStage at h
    split at h
    · exact absurd h (by simp)
    · injection h with h
      subst h
      exact ⟨rfl, rfl⟩
    · split at h
      · injection h with h
        subst h
        exact ⟨rfl, rfl⟩
      · injection h with h
        subst h
        exact ⟨rfl, rfl⟩

/-- Witness for C2's amended theorem: a concrete non-registry domain with
a rejecting TXT lookup ends with `spf = true`. -/
theorem spf_waiver_w : resHappy.checks.spf = true :=
  (spf_waiver envTxtErr "user@example.com" ["mx1.example.com"]
      (by decide) (by decide) rfl rfl (by decide)).1 rfl resHappy (by decide)

/-! ## Probe sessions resolve at most once -/

theorem stepGen_frozen (st : GState) (ev : NetEvent) (h : st.resolved.isSome) :
    stepGen st ev = st := by
  unfold stepGen
  rw [if_pos h]

theorem foldl_stepGen_frozen (st : GState) (evs : List NetEvent)
    (h : st.resolved.isSome) : List.foldl stepGen st evs = st := by
  induction evs with
  | nil => rfl
  | cons e t ih => rw [List.foldl_cons, stepGen_frozen st e h]; exact ih

theorem stepProv_frozen (cfg : ProviderConfig) (st : PState) (ev : NetEvent)
    (h : st.resolved.isSome) : stepProv cfg st ev = st := by
  unfold stepProv
  rw [if_pos h]

theorem foldl_stepProv_frozen (cfg : ProviderConfig) (st : PState)
    (evs : List NetEvent) (h : st.resolved.isSome) :
    List.foldl (stepProv cfg) st evs = st := by
  induction evs with
  | nil => rfl
  | cons e t ih => rw [List.foldl_cons, stepProv_frozen cfg st e h]; exact ih

/-! ## Claim C3 -/

/-- Counterexample to claim C3 as stated: in an `outlook.com` session that
has connected and observed a `250` response — so the validity flag is
already `true` — a subsequent socket error resolves the probe to `false`,
not to the observed flag: the error handler registered before the
`connect` callback (which always resolves `false`) fires before the
handler registered inside it. -/
theorem provider_error_after_success_cx :
    (List.foldl (stepProv outlookCfg) initProv
        [NetEvent.connected, NetEvent.data "250\r\n"]).isValid = true
    ∧ (List.foldl (stepProv outlookCfg) initProv
        [NetEvent.connected, NetEvent.data "250\r\n", NetEvent.errored]).resolved
      = some false := by
  constructor
  · decide
  · decide

/-- Claim C3, amended: in provider-specific probe mode a socket error at
any unresolved point of the session resolves the probe to `false` —
never an automatic pass, and also never `true` even when the dialect's
success codes had already set the validity flag, because the
pre-connection error handler resolves first. -/
theorem provider_error_resolves_false (cfg : ProviderConfig)
    (pre rest : List NetEvent)
    (h : (List.foldl (stepProv cfg) initProv pre).resolved = none) :
    (List.foldl (stepProv cfg) initProv (pre ++ NetEvent.errored :: rest)).resolved
      = some false := by
  rw [List.foldl_append, List.foldl_cons]
  have hstep : stepProv cfg (List.foldl (stepProv cfg) initProv pre) NetEvent.errored
      = { List.foldl (stepProv cfg) initProv pre with resolved := some false } := by
    simp [stepProv, h]
  rw [hstep, foldl_stepProv_frozen]
  rfl

/-- Witness for C3's amended theorem: an error on a fresh session resolves
`false`. -/
theorem provider_error_resolves_false_w :
    (List.foldl (stepProv outlookCfg) initProv [NetEvent.errored]).resolved
      = some false :=
  provider_error_resolves_false outlookCfg [] [] (by decide)

/-! ## Claim C7 -/

/-- Claim C7: in generic probe mode, whenever the socket timeout fires on
a still-unresolved session the probe resolves to `true` exactly when more
than one command had already been written; and in the concrete scenario —
generic domain, DNS and MX pass, probe session times out right after two
commands were sent — the overall result has `mailbox = true` and
`smtp = true`. -/
theorem generic_timeout_past_two :
    (∀ (pre rest : List NetEvent),
        (List.foldl stepGen initGen pre).resolved = none →
        (List.foldl stepGen initGen (pre ++ NetEvent.timedOut :: rest)).resolved
          = some (decide ((List.foldl stepGen initGen pre).currentCommand > 1)))
    ∧ (validateEmailWith envTimeoutProbe (EmailInput.str "user@generic-example.com")).map
        (fun r => (r.checks.mailbox, r.checks.smtp)) = some (true, true) := by
  constructor
  · intro pre rest h
    rw [List.foldl_append, List.foldl_cons]
    have hstep : stepGen (List.foldl stepGen initGen pre) NetEvent.timedOut
        = { List.foldl stepGen initGen pre with
            resolved := some (decide ((List.foldl stepGen initGen pre).currentCommand > 1)) } := by
      simp [stepGen, h]
    rw [hstep, foldl_stepGen_frozen]
    rfl
  · decide

/-- Witness for C7: a session that only connected (one command written)
resolves `false` on timeout. -/
theorem generic_timeout_past_two_w :
    (List.foldl stepGen initGen [NetEvent.connected, NetEvent.timedOut]).resolved
      = some false :=
  generic_timeout_past_two.1 [NetEvent.connected] [] (by decide)

/-! ## Claim C5 -/

theorem bulkGo_eq {α β : Type} (f : α → β) (n : ℕ) :
    ∀ (k : ℕ) (rem : List α), rem.length ≤ k → ∀ (i : ℕ) (acc : List β),
      bulkGo f n i rem acc =
        ((List.range ((rem.length + 9) / 10)).map fun j =>
          BulkEvent.progress (min ((((i + 10 * j : ℕ) : ℚ) + 10) / (n : ℚ) * 100) 100)
            (((rem.drop (10 * j)).take 10).map f))
        ++ [BulkEvent.complete (acc ++ rem.map f)] := by
  intro k
  induction k with
  | zero =>
    intro rem hlen i acc
    have hnil : rem = [] := List.eq_nil_of_length_eq_zero (Nat.le_zero.mp hlen)
    subst hnil
    simp [bulkGo]
  | succ k ih =>
    intro rem hlen i acc
    match rem with
    | [] => simp [bulkGo]
    | a :: rest =>
      have hlen' : ((a :: rest).drop 10).length ≤ k := by
        simp only [List.length_drop, List.length_cons] at *
        omega
      have hnum : ((a :: rest).length + 9) / 10
          = (((a :: rest).drop 10).length + 9) / 10 + 1 := by
        simp only [List.length_drop, List.length_cons]
        omega
      have hmaps : (List.range ((((a :: rest).drop 10).length + 9) / 10)).map
            (fun j =>
              BulkEvent.progress (min ((((i + 10 + 10 * j : ℕ) : ℚ) + 10) / (n : ℚ) * 100) 100)
                (((((a :: rest).drop 10).drop (10 * j)).take 10).map f))
          = (List.range ((((a :: rest).drop 10).length + 9) / 10)).map
            ((fun j =>
              BulkEvent.progress (min ((((i + 10 * j : ℕ) : ℚ) + 10) / (n : ℚ) * 100) 100)
                (((((a :: rest)).drop (10 * j)).take 10).map f)) ∘ Nat.succ) := by
        apply List.map_congr_left
        intro j _
        simp only [Function.comp_apply, List.drop_drop]
        rw [show (i + 10 + 10 * j : ℕ) = i + 10 * (j + 1) by ring,
          show (10 + 10 * j : ℕ) = 10 * (j + 1) by ring]
      rw [bulkGo, ih _ hlen' (i + 10) (acc ++ ((a :: rest).take 10).map f), hmaps,
        hnum, List.range_succ_eq_map, List.map_cons, List.map_map, List.cons_append]
      rw [List.append_assoc, ← List.map_append, List.take_append_drop]
      norm_num

theorem chunks_flatten {γ : Type} :
    ∀ (k : ℕ) (l : List γ), l.length ≤ k →
      ((List.range ((l.length + 9) / 10)).map fun j => (l.drop (10 * j)).take 10).flatten
        = l := by
  intro k
  induction k with
  | zero =>
    intro l hlen
    have hnil : l = [] := List.eq_nil_of_length_eq_zero (Nat.le_zero.mp hlen)
    subst hnil
    simp
  | succ k ih =>
    intro l hlen
    match l with
    | [] => simp
    | a :: rest =>
      have hlen' : ((a :: rest).drop 10).length ≤ k := by
        simp only [List.length_drop, List.length_cons] at *
        omega
      have hnum : ((a :: rest).length + 9) / 10
          = (((a :: rest).drop 10).length + 9) / 10 + 1 := by
        simp only [List.length_drop, List.length_cons]
        omega
      have htail :
          ((List.range ((((a :: rest).drop 10).length + 9) / 10)).map
            ((fun j => ((a :: rest).drop (10 * j)).take 10) ∘ Nat.succ)).flatten
          = (a :: rest).drop 10 := by
        have hmaps : (List.range ((((a :: rest).drop 10).length + 9) / 10)).map
              ((fun j => ((a :: rest).drop (10 * j)).take 10) ∘ Nat.succ)
            = (List.range ((((a :: rest).drop 10).length + 9) / 10)).map
              (fun j => (((a :: rest).drop 10).drop (10 * j)).take 10) := by
          apply List.map_congr_left
          intro j _
          simp only [Function.comp_apply, List.drop_drop]
          rw [show (10 + 10 * j : ℕ) = 10 * (j + 1) by ring]
        rw [hmaps]
        exact ih _ hlen'
      rw [hnum, List.range_succ_eq_map, List.map_cons, List.map_map,
        List.flatten_cons, htail]
      norm_num

/-- Claim C5: the bulk loop over `N` parsed records emits exactly
`⌈N/10⌉` progress events — written `(N + 9) / 10` in natural division —
the `j`-th carrying exactly the processed `j`-th batch of ten (input
order preserved) and the cumulative percentage
`min(((10 j + 10) / N) * 100, 100)`, followed by exactly one completion
event carrying all `N` processed records in input order; the
concatenation of the progress payloads equals the completion payload. -/
theorem bulk_batches {α β : Type} (f : α → β) (records : List α) :
    bulkRun f records =
      ((List.range ((records.length + 9) / 10)).map fun j =>
        BulkEvent.progress (min ((((10 * j : ℕ) : ℚ) + 10) / (records.length : ℚ) * 100) 100)
          (((records.drop (10 * j)).take 10).map f))
      ++ [BulkEvent.complete (records.map f)]
    ∧ ((List.range ((records.length + 9) / 10)).map fun j =>
        ((records.drop (10 * j)).take 10).map f).flatten = records.map f := by
  constructor
  · have h := bulkGo_eq f records.length records.length records (le_refl _) 0 []
    rw [bulkRun, h]
    simp
  · have h := chunks_flatten (records.map f).length (records.map f) (le_refl _)
    simp only [List.length_map] at h
    rw [← h]
    congr 1
    apply List.map_congr_left
    intro j _
    rw [List.map_take, List.map_drop]

/-! ## Claim C9 -/

/-- Counterexample to claim C9 as stated: the key `eMail` is a case
variant of `email` (its lower-casing is exactly `email`), yet a record
carrying the address only under `eMail` is passed through unchanged and
never validated — the lookup is not case-insensitive. -/
theorem email_key_case_cx :
    jsToLower "eMail" = "email"
    ∧ processChunk constVal [("eMail", "user@example.com")]
        = Processed.unchanged [("eMail", "user@example.com")] := by
  constructor
  · decide
  · decide

/-- Claim C9, amended: the email field is located by exact lookup of the
three spellings `email`, `Email`, `EMAIL`, in that order, taking the
first truthy (non-empty) value; a record passes through unchanged exactly
when none of those three keys holds a non-empty value, and whenever one
does the record is validated on that value. -/
theorem email_key_exact_match (V : String → VerificationResult) (rec : Record) :
    (processChunk V rec = Processed.unchanged rec ↔
      truthyGet rec "email" = none ∧ truthyGet rec "Email" = none ∧
        truthyGet rec "EMAIL" = none)
    ∧ (∀ e, findEmailField rec = some e →
        processChunk V rec = Processed.validated rec (V e)) := by
  constructor
  · unfold processChunk findEmailField
    rcases h1 : truthyGet rec "email" with _ | v1
    · rcases h2 : truthyGet rec "Email" with _ | v2
      · rcases h3 : truthyGet rec "EMAIL" with _ | v3
        · simp
        · simp
      · simp
    · simp
  · intro e he
    unfold processChunk
    rw [he]

/-- Witness for C9's amended theorem: a record carrying the address under
the exact key `Email` is validated on that address. -/
theorem email_key_exact_match_w :
    processChunk constVal [("Email", "user@example.com")]
      = Processed.validated [("Email", "user@example.com")] (constVal "user@example.com") :=
  (email_key_exact_match constVal [("Email", "user@example.com")]).2
    "user@example.com" (by decide)

/-! ## Splitting lemmas for the regex characterisation -/

theorem splitOnCharL_ne_nil (sep : Char) : ∀ (s : List Char), splitOnCharL sep s ≠ [] := by
  intro s
  induction s with
  | nil => simp [splitOnCharL]
  | cons c rest ih =>
    by_cases hc : c = sep
    · simp [splitOnCharL, hc]
    · simp only [splitOnCharL, if_neg hc]
      cases hm : splitOnCharL sep rest <;> simp

theorem splitOnCharL_no_sep (sep : Char) :
    ∀ (s : List Char), sep ∉ s → splitOnCharL sep s = [s] := by
  intro s
  induction s with
  | nil => intro _; rfl
  | cons c rest ih =>
    intro h
    have hc : ¬c = sep := fun he => h (he ▸ List.mem_cons_self c rest)
    have hrest : sep ∉ rest := fun he => h (List.mem_cons_of_mem c he)
    simp only [splitOnCharL, if_neg hc]
    rw [ih hrest]

theorem splitOnCharL_append (sep : Char) :
    ∀ (a b : List Char), sep ∉ a →
      splitOnCharL sep (a ++ sep :: b) = a :: splitOnCharL sep b := by
  intro a
  induction a with
  | nil => intro b _; simp [splitOnCharL]
  | cons c a' ih =>
    intro b h
    have hc : ¬c = sep := fun he => h (he ▸ List.mem_cons_self c a')
    have ha' : sep ∉ a' := fun he => h (List.mem_cons_of_mem c he)
    simp only [List.cons_append, splitOnCharL, if_neg hc, List.append_eq]
    rw [ih b ha']

theorem splitOnCharL_reconstruct (sep : Char) :
    ∀ (s p0 : List Char) (ps : List (List Char)),
      splitOnCharL sep s = p0 :: ps →
      s = p0 ++ (ps.map (fun p => sep :: p)).flatten := by
  intro s
  induction s with
  | nil =>
    intro p0 ps h
    injection h with h1 h2
    subst h1
    subst h2
    rfl
  | cons c rest ih =>
    intro p0 ps h
    by_cases hc : c = sep
    · subst hc
      simp only [splitOnCharL, if_pos rfl] at h
      injection h with h1 h2
      subst h1
      rcases hrest : splitOnCharL c rest with _ | ⟨q0, qs⟩
      · exact absurd hrest (splitOnCharL_ne_nil c rest)
      · rw [hrest] at h2
        subst h2
        have hr := ih q0 qs hrest
        simp only [List.map_cons, List.flatten_cons, List.nil_append, List.cons_append]
        rw [hr]
    · simp only [splitOnCharL, if_neg hc] at h
      cases hm : splitOnCharL sep rest with
      | nil => exact absurd hm (splitOnCharL_ne_nil sep rest)
      | cons q0 qs =>
        rw [hm] at h
        injection h with h1 h2
        subst h1
        subst h2
        have hr := ih q0 qs hm
        rw [List.cons_append, hr]

theorem splitOnCharL_of_parts (sep : Char) :
    ∀ (ws : List (List Char)) (p0 : List Char),
      sep ∉ p0 → (∀ w ∈ ws, sep ∉ w) →
      splitOnCharL sep (p0 ++ (ws.map (fun w => sep :: w)).flatten) = p0 :: ws := by
  intro ws
  induction ws with
  | nil =>
    intro p0 hp _
    simp only [List.map_nil, List.flatten_nil, List.append_nil]
    exact splitOnCharL_no_sep sep p0 hp
  | cons w ws' ih =>
    intro p0 hp hws
    have hflat : p0 ++ ((w :: ws').map (fun w => sep :: w)).flatten
        = p0 ++ sep :: (w ++ (ws'.map (fun w => sep :: w)).flatten) := by
      simp
    rw [hflat, splitOnCharL_append sep p0 _ hp,
      ih w (hws w (List.mem_cons_self w ws')) (fun v hv => hws v (List.mem_cons_of_mem w hv))]

/-! ## Segment and label characterisations -/

theorem SegLang_chars {mid : Char → Bool} {l : List Char} (h : SegLang mid l) :
    ∀ x ∈ l, isAlnumCh x = true ∨ mid x = true := by
  obtain ⟨c, rest, rfl, hc, hrest⟩ := h
  intro x hx
  rcases List.mem_cons.mp hx with rfl | hx'
  · exact Or.inl hc
  rcases hrest with rfl | ⟨m, z, rfl, _, hm, hz⟩
  · exact absurd hx' (List.not_mem_nil x)
  rcases List.mem_append.mp hx' with hxm | hxz
  · exact Or.inr (hm x hxm)
  · rw [List.mem_singleton.mp hxz]
    exact Or.inl hz

theorem segOk_iff (mid : Char → Bool) (l : List Char) :
    segOk mid l = true ↔ SegLang mid l := by
  cases l with
  | nil => simp [segOk, SegLang]
  | cons c rest =>
    rcases List.eq_nil_or_concat rest with rfl | ⟨m, z, hmz⟩
    · constructor
      · intro h
        refine ⟨c, [], rfl, ?_, Or.inl rfl⟩
        simpa [segOk] using h
      · rintro ⟨c', rest', heq, hc', hrest'⟩
        injection heq with he1 he2
        subst he1
        simp [segOk, hc']
    · rw [List.concat_eq_append] at hmz
      subst hmz
      have hne : (m ++ [z]).isEmpty = false := by
        simp
      constructor
      · intro h
        simp only [segOk, hne, Bool.false_or, Bool.and_eq_true, List.dropLast_concat,
          List.getLastD_concat, List.all_eq_true, decide_eq_true_iff,
          List.length_append, List.length_singleton] at h
        obtain ⟨hc, ⟨hlen, hall⟩, hz⟩ := h
        exact ⟨c, m ++ [z], rfl, hc, Or.inr ⟨m, z, rfl, by omega, hall, hz⟩⟩
      · rintro ⟨c', rest', heq, hc', hrest'⟩
        injection heq with he1 he2
        subst he1
        subst he2
        rcases hrest' with habs | ⟨m', z', hmz', hlen', hall', hz'⟩
        · exact absurd habs (by simp)
        have hz : z = z' := by
          have := congrArg (fun l => l.getLastD 'A') hmz'
          simpa [List.getLastD_concat] using this
        have hm : m = m' := by
          have := congrArg List.dropLast hmz'
          simpa [List.dropLast_concat] using this
        subst hz
        subst hm
        simp only [segOk, hne, Bool.false_or, Bool.and_eq_true, List.dropLast_concat,
          List.getLastD_concat, List.all_eq_true, decide_eq_true_iff,
          List.length_append, List.length_singleton]
        exact ⟨hc', ⟨⟨by omega, hall'⟩, hz'⟩⟩

theorem tldOk_iff (w : List Char) : tldOk w = true ↔ TldLang w := by
  simp [tldOk, TldLang, List.all_eq_true]

theorem DomainLang_chars {d : List Char} (h : DomainLang d) :
    ∀ x ∈ d, x = '.' ∨ isAlnumCh x = true ∨ labelCh x = true ∨ isAlphaCh x = true := by
  obtain ⟨p0, ws, rfl, hseg, _, htld⟩ := h
  intro x hx
  rcases List.mem_append.mp hx with hx0 | hxf
  · rcases SegLang_chars hseg x hx0 with h1 | h2
    · exact Or.inr (Or.inl h1)
    · exact Or.inr (Or.inr (Or.inl h2))
  · rcases List.mem_flatten.mp hxf with ⟨sub, hsub, hxsub⟩
    rcases List.mem_map.mp hsub with ⟨w, hw, rfl⟩
    rcases List.mem_cons.mp hxsub with rfl | hxw
    · exact Or.inl rfl
    · exact Or.inr (Or.inr (Or.inr ((htld w hw).2 x hxw)))

theorem domainOk_iff (d : List Char) : domainOk d = true ↔ DomainLang d := by
  constructor
  · intro h
    unfold domainOk at h
    rcases hsp : splitOnCharL '.' d with _ | ⟨p0, ps⟩
    · exact absurd hsp (splitOnCharL_ne_nil '.' d)
    rw [hsp] at h
    simp only [Bool.and_eq_true, Bool.not_eq_true', List.all_eq_true] at h
    refine ⟨p0, ps, splitOnCharL_reconstruct '.' d p0 ps hsp,
      (segOk_iff labelCh p0).mp h.1.1, ?_, ?_⟩
    · intro habs
      rw [habs] at h
      simp at h
    · exact fun w hw => (tldOk_iff w).mp (h.2 w hw)
  · rintro ⟨p0, ws, rfl, hseg, hne, htld⟩
    have hp0 : '.' ∉ p0 := by
      intro hx
      rcases SegLang_chars hseg '.' hx with h1 | h2
      · exact absurd h1 (by decide)
      · exact absurd h2 (by decide)
    have hws : ∀ w ∈ ws, '.' ∉ w := by
      intro w hw hx
      have := (htld w hw).2 '.' hx
      exact absurd this (by decide)
    unfold domainOk
    rw [splitOnCharL_of_parts '.' ws p0 hp0 hws]
    simp only [Bool.and_eq_true, Bool.not_eq_true', List.all_eq_true]
    refine ⟨⟨(segOk_iff labelCh p0).mpr hseg, ?_⟩,
      fun w hw => (tldOk_iff w).mpr (htld w hw)⟩
    simpa using hne

/-! ## Claim C8 -/

/-- Counterexample to claim C8 as stated: the address `a+@ab.cd` is
accepted by the grammar as the spec words it (the local part `a+` only
avoids a leading/trailing dot), but `validateEmailFormat` rejects it —
the regex requires the first and last local-part characters to be
alphanumeric, not merely non-dot. -/
theorem format_grammar_cx :
    specEmailFormat "a+@ab.cd" = true
    ∧ validateEmailFormat (EmailInput.str "a+@ab.cd") = false := by
  constructor
  · decide
  · decide

/-- Claim C8, amended: `validateEmailFormat` accepts a string exactly when
it splits as `local@domain` where the local part is one alphanumeric
character optionally followed by up to 61 characters from
`[a-zA-Z0-9._%+-]` and a final alphanumeric character (so 1-63 characters
with alphanumeric ends, not merely no leading/trailing dot); and the
domain is one label of the same shape over `[a-zA-Z0-9-]` followed by one
or more dot-separated labels that each consist of two or more alphabetic
characters only (with no upper length bound). -/
theorem format_matches_regex_lang (s : String) :
    validateEmailFormat (EmailInput.str s) = true ↔ EmailLang s.data := by
  unfold validateEmailFormat
  change (if s.data = [] then false
    else match splitOnCharL '@' s.data with
      | [l, d] => segOk localCh l && domainOk d
      | _ => false) = true ↔ EmailLang s.data
  constructor
  · intro h
    by_cases hnil : s.data = []
    · rw [if_pos hnil] at h
      exact absurd h (by simp)
    rw [if_neg hnil] at h
    split at h
    · rename_i l d heq
      rw [Bool.and_eq_true] at h
      have hsd := splitOnCharL_reconstruct '@' s.data l [d] heq
      simp only [List.map_cons, List.map_nil, List.flatten_cons, List.flatten_nil,
        List.append_nil] at hsd
      exact ⟨l, d, hsd, (segOk_iff localCh l).mp h.1, (domainOk_iff d).mp h.2⟩
    · exact absurd h (by simp)
  · rintro ⟨l, d, hsd, hl, hd⟩
    have hlA : '@' ∉ l := by
      intro hx
      rcases SegLang_chars hl '@' hx with h1 | h2
      · exact absurd h1 (by decide)
      · exact absurd h2 (by decide)
    have hdA : '@' ∉ d := by
      intro hx
      rcases DomainLang_chars hd '@' hx with h1 | h2 | h3 | h4
      · exact absurd h1 (by decide)
      · exact absurd h2 (by decide)
      · exact absurd h3 (by decide)
      · exact absurd h4 (by decide)
    rw [hsd]
    have hne : l ++ '@' :: d ≠ [] := by simp
    rw [if_neg hne, splitOnCharL_append '@' l d hlA, splitOnCharL_no_sep '@' d hdA]
    show (segOk localCh l && domainOk d) = true
    rw [Bool.and_eq_true]
    exact ⟨(segOk_iff localCh l).mpr hl, (domainOk_iff d).mpr hd⟩

end EV
